import Mathlib

/-!
Verification of `tools/porting_values.h`, a portability shim that maps the
eight legacy `values.h` limit names to the standard limit constants of
`<limits.h>` and `<float.h>`, guarded by the include guard `VALUES_H`.

The embedding has two layers:

* `Platform` records the standard limit constants supplied by the platform
  headers, and the eight shim definitions (`MAXINT` … `MINDOUBLE`) are the
  direct translation of lines 9–16 of the header.
* A small model of the C preprocessor's name table (`defineName`,
  `includeValuesH`) captures what processing the header does to a
  compilation unit: the `#ifndef VALUES_H` / `#define VALUES_H` guard and
  the eight `#define` lines, with redefinition to a different body being
  a compile-time error.

Platform-dependent facts (widths of `int` and `long`, the floating-point
format) are stated relative to the explicit models `IntModel` and
`FloatModel`, and the concrete platform named by the header's own comment
(macOS: 32-bit int, 64-bit long, IEEE binary32/binary64) instantiates them.
-/

/-- The standard limit constants supplied by `<limits.h>` and `<float.h>`
on the build platform.  The integer limits are exact integers; the
floating-point limits are exact rationals (every `FLT_MAX` etc. is a
finite binary rational). -/
structure Platform where
  INT_MAX : Int
  INT_MIN : Int
  LONG_MAX : Int
  LONG_MIN : Int
  FLT_MAX : ℚ
  FLT_MIN : ℚ
  DBL_MAX : ℚ
  DBL_MIN : ℚ

/-- `#define MAXINT INT_MAX` (line 9). -/
def MAXINT (p : Platform) : Int := p.INT_MAX

/-- `#define MININT INT_MIN` (line 10). -/
def MININT (p : Platform) : Int := p.INT_MIN

/-- `#define MAXLONG LONG_MAX` (line 11). -/
def MAXLONG (p : Platform) : Int := p.LONG_MAX

/-- `#define MINLONG LONG_MIN` (line 12). -/
def MINLONG (p : Platform) : Int := p.LONG_MIN

/-- `#define MAXFLOAT FLT_MAX` (line 13). -/
def MAXFLOAT (p : Platform) : ℚ := p.FLT_MAX

/-- `#define MINFLOAT FLT_MIN` (line 14). -/
def MINFLOAT (p : Platform) : ℚ := p.FLT_MIN

/-- `#define MAXDOUBLE DBL_MAX` (line 15). -/
def MAXDOUBLE (p : Platform) : ℚ := p.DBL_MAX

/-- `#define MINDOUBLE DBL_MIN` (line 16). -/
def MINDOUBLE (p : Platform) : ℚ := p.DBL_MIN

/-- The largest finite value of a binary floating-point format with
`p` bits of precision and maximum exponent `e` (value `(1 - 2^-p)·2^(e+1)`,
written without negative exponents). -/
def maxF (p e : Nat) : ℚ := (2 ^ p - 1) / 2 ^ p * 2 ^ (e + 1)

/-- The smallest positive normalized value `2^(-m)` of a binary
floating-point format whose minimum exponent is `-m`. -/
def minN (m : Nat) : ℚ := 1 / 2 ^ m

/-- The platform's `int` is a two's-complement integer of width `iw` and
its `long` one of width `lw`, with the C-standard constraints `16 ≤ iw`
and `iw ≤ lw`; the four integer limit constants are the exact bounds of
those types. -/
def IntModel (p : Platform) (iw lw : Nat) : Prop :=
  16 ≤ iw ∧ iw ≤ lw ∧
  p.INT_MAX = 2 ^ (iw - 1) - 1 ∧ p.INT_MIN = -(2 ^ (iw - 1)) ∧
  p.LONG_MAX = 2 ^ (lw - 1) - 1 ∧ p.LONG_MIN = -(2 ^ (lw - 1))

/-- The platform's `float` and `double` are binary floating-point formats
(precisions `fp ≤ dp`, maximum exponents `fe ≤ de`, minimum exponents
`-fm ≥ -dm`), the `double` format containing the `float` one, and the four
floating limit constants are the exact extreme values of those formats. -/
def FloatModel (pl : Platform) : Prop :=
  ∃ fp fe fm dp de dm : Nat,
    2 ≤ fp ∧ fp ≤ dp ∧ 1 ≤ fe ∧ fe ≤ de ∧ 1 ≤ fm ∧ fm ≤ dm ∧
    pl.FLT_MAX = maxF fp fe ∧ pl.FLT_MIN = minN fm ∧
    pl.DBL_MAX = maxF dp de ∧ pl.DBL_MIN = minN dm

/-- The platform the header's comment names (`values.h` replacement for
macOS): 32-bit two's-complement `int`, 64-bit `long`, IEEE-754 binary32
`float` and binary64 `double`. -/
def macosPlatform : Platform where
  INT_MAX := 2 ^ 31 - 1
  INT_MIN := -(2 ^ 31)
  LONG_MAX := 2 ^ 63 - 1
  LONG_MIN := -(2 ^ 63)
  FLT_MAX := maxF 24 127
  FLT_MIN := minN 126
  DBL_MAX := maxF 53 1023
  DBL_MIN := minN 1022

/-!  Preprocessor model: the name table of one compilation unit. -/

/-- The preprocessor's table of defined names: each entry is a name and
its replacement body. -/
abbrev NameTable : Type := List (String × String)

/-- Whether `n` is defined in table `s`. -/
def isDefinedIn (s : NameTable) (n : String) : Bool :=
  (List.find? (fun e => e.1 == n) s).isSome

/-- One `#define n b` line: a fresh name is appended to the table; an
identical redefinition is a no-op; a redefinition with a different body is
a compile-time diagnostic. -/
def defineName (s : NameTable) (n b : String) : Except String NameTable :=
  match List.find? (fun e => e.1 == n) s with
  | some e => if e.2 == b then .ok s else .error n
  | none => .ok (s ++ [(n, b)])

/-- A sequence of `#define` lines, processed in order. -/
def defineList (s : NameTable) : List (String × String) → Except String NameTable
  | [] => .ok s
  | e :: rest =>
    match defineName s e.1 e.2 with
    | .error msg => .error msg
    | .ok s1 => defineList s1 rest

/-- The eight `#define` lines of the header body (lines 9–16), in source
order. -/
def valuesHBody : List (String × String) :=
  [("MAXINT", "INT_MAX"), ("MININT", "INT_MIN"),
   ("MAXLONG", "LONG_MAX"), ("MINLONG", "LONG_MIN"),
   ("MAXFLOAT", "FLT_MAX"), ("MINFLOAT", "FLT_MIN"),
   ("MAXDOUBLE", "DBL_MAX"), ("MINDOUBLE", "DBL_MIN")]

/-- Processing one inclusion of `porting_values.h`: the `#ifndef VALUES_H`
guard skips the whole body when `VALUES_H` is already defined; otherwise
`#define VALUES_H` runs, followed by the eight `#define` lines. -/
def includeValuesH (s : NameTable) : Except String NameTable :=
  if isDefinedIn s "VALUES_H" then .ok s
  else
    match defineName s "VALUES_H" "" with
    | .error e => .error e
    | .ok s1 => defineList s1 valuesHBody

/-- The body a name expands to in a table, when defined. -/
def lookupBody (s : NameTable) (n : String) : Option String :=
  Option.map Prod.snd (List.find? (fun e => e.1 == n) s)

/-- The value of a standard limit constant on platform `p`, as an exact
rational (integer limits are coerced). -/
def stdValue (p : Platform) : String → Option ℚ
  | "INT_MAX" => some p.INT_MAX
  | "INT_MIN" => some p.INT_MIN
  | "LONG_MAX" => some p.LONG_MAX
  | "LONG_MIN" => some p.LONG_MIN
  | "FLT_MAX" => some p.FLT_MAX
  | "FLT_MIN" => some p.FLT_MIN
  | "DBL_MAX" => some p.DBL_MAX
  | "DBL_MIN" => some p.DBL_MIN
  | _ => none

/-- The value a reference to name `n` evaluates to in a compilation unit
with table `s` on platform `p`: the name expands to its body, which is a
standard limit constant. -/
def refValue (p : Platform) (s : NameTable) (n : String) : Option ℚ :=
  Option.bind (lookupBody s n) (stdValue p)

/-- The name table of a compilation unit after the first inclusion of the
header. -/
def valuesHState : NameTable :=
  [("VALUES_H", ""),
   ("MAXINT", "INT_MAX"), ("MININT", "INT_MIN"),
   ("MAXLONG", "LONG_MAX"), ("MINLONG", "LONG_MIN"),
   ("MAXFLOAT", "FLT_MAX"), ("MINFLOAT", "FLT_MIN"),
   ("MAXDOUBLE", "DBL_MAX"), ("MINDOUBLE", "DBL_MIN")]

/-- Modelled from the spec: section 4.1's mapping table of legacy name to
underlying standard constant, written from the spec's own words. -/
def specMapping : List (String × String) :=
  [("MAXINT", "INT_MAX"), ("MININT", "INT_MIN"),
   ("MAXLONG", "LONG_MAX"), ("MINLONG", "LONG_MIN"),
   ("MAXFLOAT", "FLT_MAX"), ("MINFLOAT", "FLT_MIN"),
   ("MAXDOUBLE", "DBL_MAX"), ("MINDOUBLE", "DBL_MIN")]

/-- Interpretation of a `w`-bit two's-complement bit pattern (given as a
natural number below `2^w`) as a signed integer. -/
def toSigned (w : Nat) (n : Nat) : Int :=
  if (n : Int) < 2 ^ (w - 1) then n else (n : Int) - 2 ^ w

/-- Wraparound arithmetic on `w`-bit signed integers: reduce modulo `2^w`
and reinterpret as signed. -/
def wrapInt (w : Nat) (x : Int) : Int :=
  toSigned w (x % (2 ^ w : Int)).toNat

/-!  Helper lemmas about the name-table model. -/

lemma isDefinedIn_append_left {s : NameTable} {n : String} (t : NameTable)
    (h : isDefinedIn s n = true) : isDefinedIn (s ++ t) n = true := by
  unfold isDefinedIn at h ⊢
  rw [List.find?_isSome] at h ⊢
  obtain ⟨e, he, hp⟩ := h
  exact ⟨e, List.mem_append_left t he, hp⟩

lemma defineName_extends {s s' : NameTable} {n b : String}
    (h : defineName s n b = .ok s') : ∃ t, s' = s ++ t := by
  unfold defineName at h
  split at h
  · split at h
    · cases h
      exact ⟨[], by simp⟩
    · cases h
  · cases h
    exact ⟨[(n, b)], rfl⟩

lemma defineList_extends : ∀ (l : List (String × String)) {s s' : NameTable},
    defineList s l = .ok s' → ∃ t, s' = s ++ t := by
  intro l
  induction l with
  | nil =>
    intro s s' h
    cases h
    exact ⟨[], by simp⟩
  | cons e rest ih =>
    intro s s' h
    unfold defineList at h
    cases hd : defineName s e.1 e.2 with
    | error msg => rw [hd] at h; cases h
    | ok s1 =>
      rw [hd] at h
      obtain ⟨t1, ht1⟩ := defineName_extends hd
      obtain ⟨t2, ht2⟩ := ih h
      exact ⟨t1 ++ t2, by rw [ht2, ht1, List.append_assoc]⟩

lemma includeValuesH_guard {s s' : NameTable} (h : includeValuesH s = .ok s') :
    isDefinedIn s' "VALUES_H" = true := by
  unfold includeValuesH at h
  by_cases hg : isDefinedIn s "VALUES_H" = true
  · rw [if_pos hg] at h
    cases h
    exact hg
  · rw [if_neg hg] at h
    have hf : List.find? (fun e => e.1 == "VALUES_H") s = none := by
      unfold isDefinedIn at hg
      cases hf : List.find? (fun e => e.1 == "VALUES_H") s with
      | none => rfl
      | some e => rw [hf] at hg; simp at hg
    rw [defineName, hf] at h
    obtain ⟨t, ht⟩ := defineList_extends valuesHBody h
    subst ht
    apply isDefinedIn_append_left
    unfold isDefinedIn
    rw [List.find?_isSome]
    exact ⟨("VALUES_H", ""), List.mem_append_right s (List.mem_singleton_self _), by rfl⟩

lemma includeValuesH_idem {s s' : NameTable} (h : includeValuesH s = .ok s') :
    includeValuesH s' = .ok s' := by
  unfold includeValuesH
  rw [if_pos (includeValuesH_guard h)]

/-- C2: processing the shim is idempotent within one compilation unit:
after a first successful inclusion produced table `s'`, a second inclusion
(direct or transitive) succeeds without any redefinition diagnostic and
defines nothing new — the include guard makes the body skip, leaving the
table exactly `s'`. -/
theorem claim_C2 (s s' : NameTable) (h : includeValuesH s = .ok s') :
    includeValuesH s' = .ok s' :=
  includeValuesH_idem h

theorem claim_C2_witness :
    includeValuesH (("FOO", "1") :: valuesHState) =
      .ok (("FOO", "1") :: valuesHState) :=
  claim_C2 [("FOO", "1")] (("FOO", "1") :: valuesHState) rfl

/-- C6: processing the shim in a fresh compilation unit defines exactly
the include guard `VALUES_H` plus the eight legacy limit names, in source
order, and nothing else; the eight limit names it exposes are exactly
MAXINT, MININT, MAXLONG, MINLONG, MAXFLOAT, MINFLOAT, MAXDOUBLE,
MINDOUBLE. -/
theorem claim_C6 :
    includeValuesH [] = .ok valuesHState ∧
    List.map Prod.fst valuesHState = "VALUES_H" :: List.map Prod.fst valuesHBody ∧
    List.map Prod.fst valuesHBody =
      ["MAXINT", "MININT", "MAXLONG", "MINLONG",
       "MAXFLOAT", "MINFLOAT", "MAXDOUBLE", "MINDOUBLE"] :=
  ⟨rfl, rfl, rfl⟩

/-- C7: the constants are deterministic and immutable: in the table `s'`
produced by including the shim, two evaluations of a reference to the same
name can never produce different values, and a further inclusion of the
shim leaves every reference's value unchanged. -/
theorem claim_C7 (p : Platform) (s s' : NameTable)
    (h : includeValuesH s = .ok s') (n : String) :
    (∀ v₁ v₂ : ℚ, refValue p s' n = some v₁ → refValue p s' n = some v₂ → v₁ = v₂) ∧
    includeValuesH s' = .ok s' ∧
    (∀ s'' : NameTable, includeValuesH s' = .ok s'' → refValue p s'' n = refValue p s' n) := by
  refine ⟨fun v₁ v₂ h1 h2 => ?_, includeValuesH_idem h, fun s'' h'' => ?_⟩
  · rw [h1] at h2
    exact Option.some.inj h2
  · rw [includeValuesH_idem h] at h''
    cases h''
    rfl

theorem claim_C7_witness :
    includeValuesH [] = .ok valuesHState ∧ includeValuesH valuesHState = .ok valuesHState :=
  ⟨rfl, (claim_C7 macosPlatform [] valuesHState rfl "MAXINT").2.1⟩

/-- C1: the shim invents no value: in the table produced by including the
shim, each of the eight legacy names of the spec's mapping table evaluates
to exactly the value of its corresponding standard limit constant, which
is defined on every platform. -/
theorem claim_C1 (p : Platform) (legacy std : String)
    (h : (legacy, std) ∈ specMapping) :
    refValue p valuesHState legacy = stdValue p std ∧ (stdValue p std).isSome = true := by
  fin_cases h <;> exact ⟨rfl, rfl⟩

theorem claim_C1_witness :
    ("MAXFLOAT", "FLT_MAX") ∈ specMapping ∧
    refValue macosPlatform valuesHState "MAXFLOAT" = stdValue macosPlatform "FLT_MAX" ∧
    (stdValue macosPlatform "FLT_MAX").isSome = true :=
  ⟨by simp [specMapping],
   claim_C1 macosPlatform "MAXFLOAT" "FLT_MAX" (by simp [specMapping])⟩

/-!  Helper lemmas about the floating-point format bounds. -/

lemma le_maxF (p e : Nat) (hp : 1 ≤ p) : (2 : ℚ) ^ e ≤ maxF p e := by
  unfold maxF
  have h2p : (0 : ℚ) < 2 ^ p := by positivity
  have h1 : (1 : ℚ) / 2 ≤ (2 ^ p - 1) / 2 ^ p := by
    rw [div_le_div_iff₀ (by norm_num) h2p]
    have h2 : (2 : ℚ) ≤ 2 ^ p := by
      calc (2 : ℚ) = 2 ^ 1 := (pow_one 2).symm
      _ ≤ 2 ^ p := pow_le_pow_right₀ one_le_two hp
    nlinarith
  calc (2 : ℚ) ^ e = 1 / 2 * 2 ^ (e + 1) := by ring
  _ ≤ (2 ^ p - 1) / 2 ^ p * 2 ^ (e + 1) :=
      mul_le_mul_of_nonneg_right h1 (by positivity)

lemma one_lt_maxF {p e : Nat} (hp : 1 ≤ p) (he : 1 ≤ e) : 1 < maxF p e := by
  have h1 : (2 : ℚ) ^ 1 ≤ 2 ^ e := pow_le_pow_right₀ one_le_two he
  have h2 := le_maxF p e hp
  rw [pow_one] at h1
  linarith

lemma maxF_mono {p1 e1 p2 e2 : Nat} (hp : p1 ≤ p2) (he : e1 ≤ e2) :
    maxF p1 e1 ≤ maxF p2 e2 := by
  unfold maxF
  have hq1 : (0 : ℚ) < 2 ^ p1 := by positivity
  have hq2 : (0 : ℚ) < 2 ^ p2 := by positivity
  apply mul_le_mul
  · rw [div_le_div_iff₀ hq1 hq2]
    have h12 : (2 : ℚ) ^ p1 ≤ 2 ^ p2 := pow_le_pow_right₀ one_le_two hp
    nlinarith
  · exact pow_le_pow_right₀ one_le_two (by omega)
  · positivity
  · apply div_nonneg _ (le_of_lt hq2)
    have h1 : (1 : ℚ) ≤ 2 ^ p2 := one_le_pow₀ one_le_two
    linarith

lemma minN_pos (m : Nat) : 0 < minN m := by
  unfold minN
  positivity

lemma minN_lt_one {m : Nat} (hm : 1 ≤ m) : minN m < 1 := by
  unfold minN
  rw [div_lt_one (by positivity)]
  exact one_lt_pow₀ one_lt_two (by omega)

lemma minN_anti {m1 m2 : Nat} (h : m1 ≤ m2) : minN m2 ≤ minN m1 :=
  one_div_le_one_div_of_le (by positivity) (pow_le_pow_right₀ one_le_two h)

lemma macos_floatModel : FloatModel macosPlatform :=
  ⟨24, 127, 126, 53, 1023, 1022,
   by norm_num, by norm_num, by norm_num, by norm_num, by norm_num, by norm_num,
   rfl, rfl, rfl, rfl⟩

lemma macos_intModel : IntModel macosPlatform 32 64 :=
  ⟨by norm_num, by norm_num, rfl, rfl, rfl, rfl⟩

/-- C3: under the floating-point format model, MAXFLOAT and MAXDOUBLE are
each strictly greater than 0 and strictly greater than 1, and MINFLOAT
and MINDOUBLE are each strictly greater than 0 and strictly less than 1
(positive normalized minimums, not negative bounds). -/
theorem claim_C3 (p : Platform) (h : FloatModel p) :
    0 < MAXFLOAT p ∧ 1 < MAXFLOAT p ∧ 0 < MAXDOUBLE p ∧ 1 < MAXDOUBLE p ∧
    0 < MINFLOAT p ∧ MINFLOAT p < 1 ∧ 0 < MINDOUBLE p ∧ MINDOUBLE p < 1 := by
  obtain ⟨fp, fe, fm, dp, de, dm, h2fp, hpd, h1fe, hed, h1fm, hmd, hFM, hFm, hDM, hDm⟩ := h
  simp only [MAXFLOAT, MAXDOUBLE, MINFLOAT, MINDOUBLE]
  rw [hFM, hFm, hDM, hDm]
  have hfM : 1 < maxF fp fe := one_lt_maxF (by omega) h1fe
  have hdM : 1 < maxF dp de := one_lt_maxF (by omega) (by omega)
  refine ⟨by linarith, hfM, by linarith, hdM, minN_pos fm, minN_lt_one h1fm,
    minN_pos dm, minN_lt_one (by omega)⟩

theorem claim_C3_witness :
    FloatModel macosPlatform ∧
    (0 < MAXFLOAT macosPlatform ∧ 1 < MAXFLOAT macosPlatform ∧
     0 < MAXDOUBLE macosPlatform ∧ 1 < MAXDOUBLE macosPlatform ∧
     0 < MINFLOAT macosPlatform ∧ MINFLOAT macosPlatform < 1 ∧
     0 < MINDOUBLE macosPlatform ∧ MINDOUBLE macosPlatform < 1) :=
  ⟨macos_floatModel, claim_C3 macosPlatform macos_floatModel⟩

/-- C4: under the integer model, MININT is strictly less than 0, and on
the typical 32-bit-int platform MAXINT equals 2147483647 and MININT
equals -2147483648. -/
theorem claim_C4 (p : Platform) (iw lw : Nat) (h : IntModel p iw lw) :
    MININT p < 0 ∧
    MAXINT macosPlatform = 2147483647 ∧ MININT macosPlatform = -2147483648 := by
  obtain ⟨hiw, _, _, hmin, _, _⟩ := h
  refine ⟨?_, by decide, by decide⟩
  simp only [MININT]
  rw [hmin]
  have hp : (0 : ℤ) < 2 ^ (iw - 1) := by positivity
  linarith

theorem claim_C4_witness :
    IntModel macosPlatform 32 64 ∧ MININT macosPlatform < 0 ∧
    MAXINT macosPlatform = 2147483647 ∧ MININT macosPlatform = -2147483648 :=
  ⟨macos_intModel, claim_C4 macosPlatform 32 64 macos_intModel⟩

/-- C5: under the integer model, the signed int bounds are exact for
`iw`-bit two's-complement machine integers: MAXINT + 1 wraps around to
MININT, every representable `iw`-bit signed value lies between MININT and
MAXINT, and both bounds are themselves representable. -/
theorem claim_C5 (p : Platform) (iw lw : Nat) (h : IntModel p iw lw) :
    wrapInt iw (MAXINT p + 1) = MININT p ∧
    (∀ n : Nat, n < 2 ^ iw → MININT p ≤ toSigned iw n ∧ toSigned iw n ≤ MAXINT p) ∧
    (∃ a : Nat, a < 2 ^ iw ∧ toSigned iw a = MAXINT p) ∧
    (∃ b : Nat, b < 2 ^ iw ∧ toSigned iw b = MININT p) := by
  obtain ⟨hiw, _, hmax, hmin, _, _⟩ := h
  obtain ⟨k, rfl⟩ : ∃ k, iw = k + 1 := ⟨iw - 1, by omega⟩
  simp only [MAXINT, MININT]
  rw [hmax, hmin]
  simp only [Nat.add_sub_cancel]
  have hk0 : (0 : ℤ) < 2 ^ k := by positivity
  have hksucc : (2 : ℤ) ^ (k + 1) = 2 * 2 ^ k := by rw [pow_succ]; ring
  refine ⟨?_, ?_, ?_, ?_⟩
  · unfold wrapInt
    have h1 : (2 : ℤ) ^ k - 1 + 1 = 2 ^ k := by ring
    have h2 : ((2 : ℤ) ^ k) % ((2 : ℤ) ^ (k + 1)) = 2 ^ k := by
      apply Int.emod_eq_of_lt (by positivity)
      rw [hksucc]
      linarith
    rw [h1, h2]
    unfold toSigned
    rw [Int.toNat_of_nonneg (by positivity)]
    simp only [Nat.add_sub_cancel]
    rw [if_neg (lt_irrefl _), hksucc]
    ring
  · intro n hn
    have hnz : (n : ℤ) < 2 ^ (k + 1) := by exact_mod_cast hn
    have hn0 : (0 : ℤ) ≤ (n : ℤ) := Int.natCast_nonneg n
    unfold toSigned
    simp only [Nat.add_sub_cancel]
    by_cases hc : (n : ℤ) < 2 ^ k
    · rw [if_pos hc]
      have hle := Int.lt_iff_add_one_le.mp hc
      constructor <;> linarith
    · rw [if_neg hc]
      push_neg at hc
      have hle := Int.lt_iff_add_one_le.mp hnz
      rw [hksucc] at hle ⊢
      constructor <;> linarith
  · refine ⟨2 ^ k - 1, ?_, ?_⟩
    · have h1 : (1 : ℕ) ≤ 2 ^ k := Nat.one_le_two_pow
      have h2 : (2 : ℕ) ^ k < 2 ^ (k + 1) := pow_lt_pow_right₀ one_lt_two k.lt_succ_self
      omega
    · unfold toSigned
      have h1 : (1 : ℕ) ≤ 2 ^ k := Nat.one_le_two_pow
      have hcast : (((2 : ℕ) ^ k - 1 : ℕ) : ℤ) = 2 ^ k - 1 := by
        push_cast [h1]
        ring
      rw [hcast]
      simp only [Nat.add_sub_cancel]
      rw [if_pos (by linarith)]
  · refine ⟨2 ^ k, pow_lt_pow_right₀ one_lt_two k.lt_succ_self, ?_⟩
    unfold toSigned
    have hcast : (((2 : ℕ) ^ k : ℕ) : ℤ) = 2 ^ k := by push_cast; ring
    rw [hcast]
    simp only [Nat.add_sub_cancel]
    rw [if_neg (lt_irrefl _), hksucc]
    ring

theorem claim_C5_witness :
    IntModel macosPlatform 32 64 ∧
    wrapInt 32 (MAXINT macosPlatform + 1) = MININT macosPlatform :=
  ⟨macos_intModel, (claim_C5 macosPlatform 32 64 macos_intModel).1⟩

/-- C8: under the integer model, the long bounds dominate the int bounds:
MAXINT ≤ MAXLONG and MINLONG ≤ MININT, because long is at least as wide
as int. -/
theorem claim_C8 (p : Platform) (iw lw : Nat) (h : IntModel p iw lw) :
    MAXINT p ≤ MAXLONG p ∧ MINLONG p ≤ MININT p := by
  obtain ⟨hiw, hwl, hmax, hmin, hlmax, hlmin⟩ := h
  simp only [MAXINT, MAXLONG, MININT, MINLONG]
  rw [hmax, hmin, hlmax, hlmin]
  have hp : (2 : ℤ) ^ (iw - 1) ≤ 2 ^ (lw - 1) := pow_le_pow_right₀ one_le_two (by omega)
  constructor <;> linarith

theorem claim_C8_witness :
    IntModel macosPlatform 32 64 ∧
    MAXINT macosPlatform ≤ MAXLONG macosPlatform ∧
    MINLONG macosPlatform ≤ MININT macosPlatform :=
  ⟨macos_intModel, claim_C8 macosPlatform 32 64 macos_intModel⟩

/-- C9: under the integer model, the signed bounds are two's-complement
symmetric: MININT = -MAXINT - 1 and MINLONG = -MAXLONG - 1. -/
theorem claim_C9 (p : Platform) (iw lw : Nat) (h : IntModel p iw lw) :
    MININT p = -MAXINT p - 1 ∧ MINLONG p = -MAXLONG p - 1 := by
  obtain ⟨_, _, hmax, hmin, hlmax, hlmin⟩ := h
  simp only [MININT, MAXINT, MINLONG, MAXLONG]
  rw [hmax, hmin, hlmax, hlmin]
  constructor <;> ring

theorem claim_C9_witness :
    IntModel macosPlatform 32 64 ∧
    MININT macosPlatform = -MAXINT macosPlatform - 1 ∧
    MINLONG macosPlatform = -MAXLONG macosPlatform - 1 :=
  ⟨macos_intModel, claim_C9 macosPlatform 32 64 macos_intModel⟩

/-- C10: under the floating-point format model, the double-precision
range contains the single-precision range: MAXFLOAT ≤ MAXDOUBLE and
MINDOUBLE ≤ MINFLOAT. -/
theorem claim_C10 (p : Platform) (h : FloatModel p) :
    MAXFLOAT p ≤ MAXDOUBLE p ∧ MINDOUBLE p ≤ MINFLOAT p := by
  obtain ⟨fp, fe, fm, dp, de, dm, h2fp, hpd, h1fe, hed, h1fm, hmd, hFM, hFm, hDM, hDm⟩ := h
  simp only [MAXFLOAT, MAXDOUBLE, MINFLOAT, MINDOUBLE]
  rw [hFM, hDM, hFm, hDm]
  exact ⟨maxF_mono hpd hed, minN_anti hmd⟩

theorem claim_C10_witness :
    FloatModel macosPlatform ∧
    MAXFLOAT macosPlatform ≤ MAXDOUBLE macosPlatform ∧
    MINDOUBLE macosPlatform ≤ MINFLOAT macosPlatform :=
  ⟨macos_floatModel, claim_C10 macosPlatform macos_floatModel⟩
